import Mathlib

/-!
Verification of the gRPC scanner's discovery engine against its specification.

The definitions below are a shallow embedding of the Go sources:
the status-classification functions (`checkService`, `checkMethod`,
`detectServiceType`, `checkGRPCService`, the per-probe classification of
`checkStandardServices`), the reflection probes (`tryReflection`,
`discoverServicesViaReflection`), the result-aggregation operations
(`addService`, `addMethod`, `uniqueStrings`), the wordlist parser
(`loadEnhancedWordlist`), the default-method computation of
`wordlistBruteForce`, and the version fuzzer (`generateVersionedServicePaths`,
`fuzzServiceVersions`).  Network effects are modelled by passing the observed
outcome of each RPC invocation as an explicit value.
-/

namespace GrpcScan

/-- The gRPC status codes (google.golang.org/grpc/codes). -/
inductive Code where
  | ok
  | cancelled
  | unknown
  | invalidArgument
  | deadlineExceeded
  | notFound
  | alreadyExists
  | permissionDenied
  | resourceExhausted
  | failedPrecondition
  | aborted
  | outOfRange
  | unimplemented
  | internal
  | unavailable
  | dataLoss
  | unauthenticated
deriving DecidableEq

/-- The observable outcome of one `conn.Invoke` call: success (a nil error),
an error carrying a gRPC status (`status.FromError` returns ok), or an error
with no gRPC status at all (transport-level failure). -/
inductive InvokeOutcome where
  | success
  | statusErr (code : Code) (msg : String)
  | otherErr (msg : String)
deriving DecidableEq

/-- Substring search on character lists (Go `strings.Contains`). -/
def listContainsSub (pat : List Char) : List Char → Bool
  | [] => pat.isEmpty
  | c :: rest => pat.isPrefixOf (c :: rest) || listContainsSub pat rest

/-- Go `strings.Contains s pat`. -/
def strContains (s pat : String) : Bool :=
  listContainsSub pat.data s.data

/-- ASCII lower-casing of one character (what Go `strings.ToLower` does on the
ASCII messages the scanner matches against). -/
def lowerChar (c : Char) : Char :=
  if 65 ≤ c.toNat ∧ c.toNat ≤ 90 then Char.ofNat (c.toNat + 32) else c

/-- Go `strings.ToLower` on ASCII strings. -/
def toLowerStr (s : String) : String :=
  ⟨s.data.map lowerChar⟩

/-- Go `strings.HasPrefix`. -/
def strHasPre (s pat : String) : Bool :=
  pat.data.isPrefixOf s.data

/-- Embedding of part_004 `checkService` (the Method Oracle's
service-existence check), classifying the outcome of invoking
`/service/method` with an empty body. -/
def checkService : InvokeOutcome → Bool
  | .success => true
  | .otherErr _ => false
  | .statusErr code msg =>
    if code = Code.unimplemented ∧ strContains (toLowerStr msg) "unknown service" = true then
      false
    else if code = Code.unimplemented ∧ strContains (toLowerStr msg) "unknown method" = true then
      true
    else
      match code with
      | .invalidArgument | .failedPrecondition | .unauthenticated
      | .permissionDenied | .internal => true
      | _ => false

/-- Embedding of part_004 `checkMethod` (the Method Oracle's
method-existence check). -/
def checkMethod : InvokeOutcome → Bool
  | .success => true
  | .otherErr _ => false
  | .statusErr code _ =>
    match code with
    | .invalidArgument | .failedPrecondition | .unauthenticated
    | .permissionDenied | .internal => true
    | _ => false

/-- Embedding of part_004 `detectServiceType`: the transport probe's
classification of the health-check response into (is_grpc, reason). -/
def detectServiceType : InvokeOutcome → Bool × String
  | .success => (true, "gRPC service with health check")
  | .otherErr msg =>
    if strContains msg "HTTP" = true then (false, "HTTP/REST service")
    else if strContains msg "connection refused" = true then
      (false, "No service listening on this port")
    else (false, "Unknown service type")
  | .statusErr code msg =>
    match code with
    | .unimplemented =>
      if strContains msg "unknown service" = true then
        (true, "gRPC service (health check not implemented)")
      else (true, "gRPC service")
    | .unavailable => (false, "Service unavailable")
    | .internal => (true, "gRPC service")
    | _ => (true, "gRPC service")

/-- Per-probe verdict inside part_005 `checkStandardServices`' method loop. -/
inductive MethodVerdict where
  | successBreak
  | connErr
  | svcExplicitlyMissing
  | svcPresentMethodMissing
  | skipUnavailable
  | confirmed
  | unknownCode
deriving DecidableEq

/-- Embedding of the status classification performed for each method probe in
part_005 `checkStandardServices` (the same code list also drives
`bruteForceServices`'s confirmed-method branch there). -/
def classifyStandardProbe : InvokeOutcome → MethodVerdict
  | .success => .successBreak
  | .otherErr _ => .connErr
  | .statusErr code msg =>
    let em := toLowerStr msg
    if (code = Code.unimplemented ∨ code = Code.notFound) ∧
        strContains em "service" = true ∧ strContains em "unknown service" = true then
      .svcExplicitlyMissing
    else if code = Code.unimplemented ∧
        strContains em "method" = true ∧ strContains em "unknown method" = true then
      .svcPresentMethodMissing
    else if code = Code.unavailable then
      .skipUnavailable
    else
      match code with
      | .invalidArgument | .failedPrecondition | .outOfRange
      | .unauthenticated | .permissionDenied | .internal => .confirmed
      | _ => .unknownCode

/-- gRPC channel connectivity states (google.golang.org/grpc/connectivity). -/
inductive ConnState where
  | ready
  | idle
  | connecting
  | transientFailure
  | shutdown
deriving DecidableEq

/-- `connectivity.State.String()`. -/
def connStateName : ConnState → String
  | .ready => "READY"
  | .idle => "IDLE"
  | .connecting => "CONNECTING"
  | .transientFailure => "TRANSIENT_FAILURE"
  | .shutdown => "SHUTDOWN"

/-- The observable outcome of `grpc.DialContext` with `WithBlock` followed by
the health-check invoke, as seen by `checkGRPCService`. -/
inductive DialOutcome where
  | dialErr (msg : String)
  | conn (state : ConnState) (invoke : InvokeOutcome)
deriving DecidableEq

/-- The fields of cmd_detect.go's `DetectResult` that the detector fills
(latency is modelled by whether a latency value was recorded). -/
structure DetectResult where
  isGRPC : Bool
  error : String
  latencySet : Bool
deriving DecidableEq

/-- Embedding of cmd_detect.go `checkGRPCService`: the per-target detector. -/
def checkGRPCService : DialOutcome → DetectResult
  | .dialErr msg => ⟨false, msg, true⟩
  | .conn state invoke =>
    if state = ConnState.transientFailure ∨ state = ConnState.shutdown then
      ⟨false, "Connection failed: " ++ connStateName state, true⟩
    else
      match invoke with
      | .success => ⟨true, "", true⟩
      | .statusErr _ _ => ⟨true, "", true⟩
      | .otherErr _ => ⟨false, "Non-gRPC response", true⟩

/-- The observable outcome of one reflection exchange: stream-open failure,
send failure, receive failure, a response that is not a ListServices
response, or a ListServices response carrying the given service names. -/
inductive ReflectionOutcome where
  | streamErr
  | sendErr
  | recvErr (code : Code) (msg : String)
  | wrongType
  | services (names : List String)
deriving DecidableEq

/-- What part_004 `tryReflection` does to the scan result: its return value,
the value it stores in `ReflectionEnabled`, and the names it passes to
`addService`. -/
structure ReflectionProbeResult where
  returnedTrue : Bool
  reflectionEnabled : Bool
  discovered : List String
deriving DecidableEq

/-- Embedding of part_004 `tryReflection`: on any failure it returns false
leaving `ReflectionEnabled` at its zero value; once a ListServices response
arrives it sets `ReflectionEnabled = true` and ingests every name. -/
def tryReflection : ReflectionOutcome → ReflectionProbeResult
  | .streamErr => ⟨false, false, []⟩
  | .sendErr => ⟨false, false, []⟩
  | .recvErr _ _ => ⟨false, false, []⟩
  | .wrongType => ⟨false, false, []⟩
  | .services names => ⟨true, true, names⟩

/-- Embedding of part_005 `discoverServicesViaReflection`'s return value,
which part_005 `main` stores in `result.ReflectionEnabled`: true exactly when
the ListServices response carried at least one service. -/
def discoverServicesViaReflection : ReflectionOutcome → Bool
  | .streamErr => false
  | .sendErr => false
  | .recvErr _ _ => false
  | .wrongType => false
  | .services names => !names.isEmpty

/-- The part of part_004's `ScanResult` that `addService`/`addMethod` mutate:
the service list and the methods-found map (modelled as an association list
in key-insertion order). -/
structure ResultState where
  availableServices : List String
  methodsFound : List (String × List String)
deriving DecidableEq

/-- The empty scan result part_004 `main` starts from. -/
def emptyResult : ResultState := ⟨[], []⟩

/-- Go map read `MethodsFound[service]` (zero value `nil` when absent). -/
def lookupMethods (mf : List (String × List String)) (service : String) : List String :=
  match mf.find? (fun p => p.1 = service) with
  | some p => p.2
  | none => []

/-- Go map write `MethodsFound[service] = ms`: update in place, or add a new
key. -/
def storeMethods : List (String × List String) → String → List String → List (String × List String)
  | [], service, ms => [(service, ms)]
  | (k, v) :: rest, service, ms =>
    if k = service then (service, ms) :: rest
    else (k, v) :: storeMethods rest service ms

/-- Embedding of part_004 `addService` (the `source` argument only selects
logging and is dropped): append the service unless already present. -/
def addService (st : ResultState) (service : String) : ResultState :=
  if service ∈ st.availableServices then st
  else { st with availableServices := st.availableServices ++ [service] }

/-- Embedding of part_004 `addMethod`: append the method to the service's
current list (Go's `cur`, inlined here) unless already present. -/
def addMethod (st : ResultState) (service method : String) : ResultState :=
  if method ∈ lookupMethods st.methodsFound service then st
  else
    { st with
      methodsFound :=
        storeMethods st.methodsFound service
          (lookupMethods st.methodsFound service ++ [method]) }

/-- One mutex-protected result update issued by the orchestrator. -/
inductive Op where
  | service (s : String)
  | method (s m : String)
deriving DecidableEq

/-- Apply one update. -/
def applyOp (st : ResultState) : Op → ResultState
  | .service s => addService st s
  | .method s m => addMethod st s m

/-- The result after a completed scan that issued the given sequence of
updates (the mutex serializes concurrent calls into such a sequence). -/
def runOps (ops : List Op) : ResultState :=
  ops.foldl applyOp emptyResult

/-- The orchestrator's call discipline: every `addMethod s m` happens after
an `addService s` (in part_004, every `addMethod` call site is guarded by a
preceding `addService` on the same name in the same block). -/
def wellSequenced : List String → List Op → Bool
  | _, [] => true
  | seen, .service s :: rest => wellSequenced (s :: seen) rest
  | seen, .method s _ :: rest => decide (s ∈ seen) && wellSequenced seen rest

/-- Embedding of part_005 `uniqueStrings`: first-occurrence deduplication.
The Go code tracks a `seen` map beside `result`; an item is in that map
exactly when it is already in `result`, so the fold carries `result` alone. -/
def uniqueStrings (input : List String) : List String :=
  input.foldl (fun result item => if item ∈ result then result else result ++ [item]) []

/-- Go `strings.Replace(s, old, new, 1)` on character lists: rewrite the
leftmost occurrence of `old`, leave the list unchanged when `old` does not
occur. -/
def replaceFirstList (old new : List Char) : List Char → List Char
  | [] => []
  | c :: rest =>
    if old.isPrefixOf (c :: rest) then new ++ (c :: rest).drop old.length
    else c :: replaceFirstList old new rest

/-- Go `strings.Replace(s, old, new, 1)`. -/
def replaceFirstStr (s old new : String) : String :=
  ⟨replaceFirstList old.data new.data s.data⟩

/-- The version pattern `.vN.` built with `fmt.Sprintf`. -/
def vpat (n : Nat) : String := ".v" ++ toString n ++ "."

/-- Embedding of part_005 `generateVersionedServicePaths`: paths without a
`.v1.`/`.v2.`/`.v3.` segment pass through; otherwise, for each target
version v in 1..maxVersion, the lowest-numbered `.vi.` pattern present is
rewritten (first occurrence only) to `.vv.`, keeping the results that differ
from the original, with the original appended last. -/
def generateVersionedServicePaths (servicePath : String) (maxVersion : Nat) : List String :=
  if strContains servicePath ".v1." = false ∧ strContains servicePath ".v2." = false ∧
      strContains servicePath ".v3." = false then
    [servicePath]
  else
    let results := (List.range' 1 maxVersion).filterMap (fun v =>
      let versionedPath :=
        match (List.range' 1 maxVersion).find? (fun i => strContains servicePath (vpat i)) with
        | some i => replaceFirstStr servicePath (vpat i) (vpat v)
        | none => servicePath
      if versionedPath = servicePath then none else some versionedPath)
    results ++ [servicePath]

/-- Embedding of part_005 `fuzzServiceVersions`: expand every path to its
version variations, concatenated in order. -/
def fuzzServiceVersions (servicePaths : List String) (maxVersion : Nat) : List String :=
  servicePaths.flatMap (fun path => generateVersionedServicePaths path maxVersion)

/-- One parsed wordlist entry (part_004 `WordlistEntry`). -/
structure WordlistEntry where
  service : String
  methods : List String
deriving DecidableEq

/-- Go whitespace as matched by `strings.TrimSpace` on the scanner's ASCII
input. -/
def isSpaceChar (c : Char) : Bool :=
  c = ' ' || c = '\t' || c = '\n' || c = '\r'

/-- Go `strings.TrimSpace` (ASCII). -/
def goTrimSpace (s : String) : String :=
  ⟨((s.data.dropWhile isSpaceChar).reverse.dropWhile isSpaceChar).reverse⟩

/-- Go `strings.SplitN(s, c, 2)` on a string containing `c`: the part before
the first `c` and everything after it. -/
def breakAtChar (c : Char) : List Char → List Char × List Char
  | [] => ([], [])
  | x :: rest =>
    if x = c then ([], rest)
    else
      let p := breakAtChar c rest
      (x :: p.1, p.2)

/-- Go `strings.Split(s, c)` for a one-character separator. -/
def splitChar (c : Char) : List Char → List (List Char)
  | [] => [[]]
  | x :: rest =>
    let ps := splitChar c rest
    if x = c then [] :: ps
    else
      match ps with
      | [] => [[x]]
      | h :: t => (x :: h) :: t

/-- One iteration of part_004 `loadEnhancedWordlist`'s scan loop: trim the
line; skip blanks and `#`/`//` comment lines; a leading `*` adds a global
method; a line with `:` is split once into service and comma-separated
methods (each trimmed, empties dropped); anything else is a bare service. -/
def parseWordLine (acc : List WordlistEntry × List String) (raw : String) :
    List WordlistEntry × List String :=
  let line := goTrimSpace raw
  if line = "" ∨ strHasPre line "#" = true ∨ strHasPre line "//" = true then acc
  else if strHasPre line "*" = true then
    (acc.1, acc.2 ++ [⟨line.data.drop 1⟩])
  else if strContains line ":" = true then
    let parts := breakAtChar ':' line.data
    let service := goTrimSpace ⟨parts.1⟩
    let methodList := splitChar ',' parts.2
    let methods := methodList.filterMap (fun m =>
      let mm := goTrimSpace ⟨m⟩
      if mm = "" then none else some mm)
    (acc.1 ++ [⟨service, methods⟩], acc.2)
  else
    (acc.1 ++ [⟨line, []⟩], acc.2)

/-- Embedding of part_004 `loadEnhancedWordlist` over the file's lines:
returns (entries, globalMethods). -/
def loadEnhancedWordlist (lines : List String) : List WordlistEntry × List String :=
  lines.foldl parseWordLine ([], [])

/-- The ten built-in default methods of part_004 `wordlistBruteForce`. -/
def builtinDefaultMethods : List String :=
  ["Get", "List", "Create", "Update", "Delete", "Find", "Search", "Query", "Check", "Ping"]

/-- The key set of a Go map after inserting every element of `l` in order,
listed here in first-insertion order (the canonical enumeration of
`methodSet`'s keys; actual iteration order is unspecified). -/
def goMapKeys (l : List String) : List String :=
  l.foldl (fun acc m => if m ∈ acc then acc else acc ++ [m]) []

/-- The possible values of `defaultMethods` after part_004
`wordlistBruteForce`'s deduplication step: with no global methods the
built-in list is kept as is; otherwise the code re-collects the keys of a Go
map by `for m := range methodSet`, whose iteration order is unspecified, so
any permutation of the key set is a possible outcome. -/
def defaultMethodsOutcome (globalMethods out : List String) : Prop :=
  if globalMethods = [] then out = builtinDefaultMethods
  else List.Perm out (goMapKeys (builtinDefaultMethods ++ globalMethods))

/-- Keep each element not seen before, in order (`seen` holds the values
already emitted). -/
def dedupSeen (seen : List String) : List String → List String
  | [] => []
  | x :: xs => if x ∈ seen then dedupSeen seen xs else x :: dedupSeen (x :: seen) xs

/-- Modelled from the spec's words, for comparison with the code: the
concatenation "deduplicated while preserving the first occurrence of each
method in that order". -/
def dedupKeepFirst (l : List String) : List String :=
  dedupSeen [] l

/-- The default method list the spec claims: the ten built-ins followed by
the global methods, first occurrences kept. -/
def claimedDefaultMethods (globalMethods : List String) : List String :=
  dedupKeepFirst (builtinDefaultMethods ++ globalMethods)

/-- Claim C1, counterexample: the status UNIMPLEMENTED with the terse message
"unimplemented" — which contains neither "unknown service" nor
"unknown method" — makes `checkService` return false, not true as claimed. -/
theorem C1_counterexample :
    strContains (toLowerStr "unimplemented") "unknown service" = false ∧
    strContains (toLowerStr "unimplemented") "unknown method" = false ∧
    checkService (.statusErr .unimplemented "unimplemented") = false := by
  decide

/-- Claim C1, amended: for every UNIMPLEMENTED response whose lower-cased
message contains neither "unknown service" nor "unknown method",
`checkService` classifies the service as absent (returns false), so the
orchestrator does not add it. -/
theorem C1_theorem (msg : String)
    (h1 : strContains (toLowerStr msg) "unknown service" = false)
    (h2 : strContains (toLowerStr msg) "unknown method" = false) :
    checkService (.statusErr .unimplemented msg) = false := by
  simp [checkService, h1, h2]

/-- Claim C1, witness: the amended theorem at the concrete message
"not implemented". -/
theorem C1_witness :
    checkService (.statusErr .unimplemented "not implemented") = false :=
  C1_theorem "not implemented" (by decide) (by decide)

/-- Claim C3, counterexample: a response carrying the valid gRPC status
UNAVAILABLE is classified by `detectServiceType` as not gRPC, contradicting
"ANY gRPC status ... regardless of the status code value". -/
theorem C3_counterexample :
    (detectServiceType (.statusErr .unavailable "")).1 = false := by
  decide

/-- Claim C3, amended: `detectServiceType` classifies every gRPC status
except UNAVAILABLE as gRPC; UNAVAILABLE and statuses-free responses yield
is_grpc = false.  The bulk detector `checkGRPCService` does treat every
valid gRPC status, UNAVAILABLE included, as proof of gRPC. -/
theorem C3_theorem :
    (∀ code msg, code ≠ Code.unavailable →
      (detectServiceType (.statusErr code msg)).1 = true) ∧
    (∀ msg, (detectServiceType (.statusErr .unavailable msg)).1 = false) ∧
    (∀ msg, (detectServiceType (.otherErr msg)).1 = false) ∧
    (∀ state code msg, state ≠ ConnState.transientFailure → state ≠ ConnState.shutdown →
      (checkGRPCService (.conn state (.statusErr code msg))).isGRPC = true) := by
  refine ⟨?_, ?_, ?_, ?_⟩
  · intro code msg h
    cases code <;> simp [detectServiceType] at h ⊢
    split <;> rfl
  · intro msg
    rfl
  · intro msg
    simp only [detectServiceType]
    split
    · rfl
    · split <;> rfl
  · intro state code msg h1 h2
    have : ¬(state = ConnState.transientFailure ∨ state = ConnState.shutdown) := by
      rintro (h | h) <;> [exact h1 h; exact h2 h]
    simp [checkGRPCService, this]

/-- Claim C4, counterexample: on OUT_OF_RANGE the part_004 oracle denies
both the service and the method. -/
theorem C4_counterexample :
    checkService (.statusErr .outOfRange "") = false ∧
    checkMethod (.statusErr .outOfRange "") = false := by
  decide

/-- Claim C4, amended: OUT_OF_RANGE confirms service and method only in
part_005's per-probe classification (`checkStandardServices` and
`bruteForceServices`); part_004's `checkService` and `checkMethod` have no
OUT_OF_RANGE case and return false for it, whatever the message. -/
theorem C4_theorem (msg : String) :
    classifyStandardProbe (.statusErr .outOfRange msg) = .confirmed ∧
    checkService (.statusErr .outOfRange msg) = false ∧
    checkMethod (.statusErr .outOfRange msg) = false := by
  refine ⟨?_, ?_, rfl⟩
  · simp [classifyStandardProbe]
  · simp [checkService]

/-- Claim C2, counterexample: a reflection stream that opens and returns a
ListServices response carrying zero services makes part_004 `tryReflection`
set `ReflectionEnabled = true`, not false as claimed. -/
theorem C2_counterexample :
    (tryReflection (.services [])).reflectionEnabled = true ∧
    (tryReflection (.services [])).discovered = [] := by
  decide

/-- Claim C2, amended: the two scanners differ.  In part_005,
`discoverServicesViaReflection` reports true exactly when the response
carried a non-empty service list; in part_004, `tryReflection` sets
`ReflectionEnabled = true` for every ListServices response, zero services
included, and leaves it false only when no such response arrives. -/
theorem C2_theorem :
    (∀ names, (tryReflection (.services names)).reflectionEnabled = true) ∧
    (∀ o, discoverServicesViaReflection o = true ↔
      ∃ names, o = ReflectionOutcome.services names ∧ names ≠ []) ∧
    (∀ o, (∀ names, o ≠ ReflectionOutcome.services names) →
      (tryReflection o).reflectionEnabled = false) := by
  refine ⟨fun _ => rfl, ?_, ?_⟩
  · intro o
    cases o <;> simp [discoverServicesViaReflection]
  · intro o h
    cases o <;> first | rfl | exact absurd rfl (h _)

/-- Membership of the original path in its own variation list: part_005
`generateVersionedServicePaths` always re-emits its input. -/
theorem self_mem_generateVersionedServicePaths (p : String) (maxVersion : Nat) :
    p ∈ generateVersionedServicePaths p maxVersion := by
  unfold generateVersionedServicePaths
  split
  · exact List.mem_singleton.2 rfl
  · exact List.mem_append_right _ (List.mem_singleton.2 rfl)

/-- Claim C7, counterexample: on the path "a.v1.b.v2.c" (two version
segments) with maxVersion = 3, the second application of
`fuzzServiceVersions` emits "a.v3.b.v1.c", which the first application does
not, so the two candidate sets differ. -/
theorem C7_counterexample :
    "a.v3.b.v1.c" ∈ fuzzServiceVersions (fuzzServiceVersions ["a.v1.b.v2.c"] 3) 3 ∧
    "a.v3.b.v1.c" ∉ fuzzServiceVersions ["a.v1.b.v2.c"] 3 := by
  decide

/-- Claim C7, amended: version fuzzing is not idempotent; applying it twice
yields a superset of applying it once (every emitted path re-emits itself),
and on paths with more than one version segment the inclusion is strict. -/
theorem C7_theorem (servicePaths : List String) (maxVersion : Nat) (x : String)
    (h : x ∈ fuzzServiceVersions servicePaths maxVersion) :
    x ∈ fuzzServiceVersions (fuzzServiceVersions servicePaths maxVersion) maxVersion :=
  List.mem_flatMap.2 ⟨x, h, self_mem_generateVersionedServicePaths x maxVersion⟩

/-- Claim C7, witness: the amended inclusion at a concrete fuzzed list. -/
theorem C7_witness :
    "user.v2.UserService" ∈
      fuzzServiceVersions (fuzzServiceVersions ["user.v1.UserService"] 2) 2 :=
  C7_theorem ["user.v1.UserService"] 2 "user.v2.UserService" (by decide)

/-- Claim C9, counterexample: the line "proto.UserService #legacy" is parsed
by `loadEnhancedWordlist` into an entry whose service name keeps the inline
comment, unlike the comment-free line. -/
theorem C9_counterexample :
    (loadEnhancedWordlist ["proto.UserService #legacy"]).1 =
      [{ service := "proto.UserService #legacy", methods := [] }] ∧
    (loadEnhancedWordlist ["proto.UserService"]).1 =
      [{ service := "proto.UserService", methods := [] }] := by
  decide

/-- Claim C9, amended: blank lines and lines whose trimmed form begins with
`#` or `//` are ignored entirely by `loadEnhancedWordlist`, but inline
trailing `#` comments are not stripped: a simple service line is stored
whole (trimmed, inline comment included) as the entry's service name. -/
theorem C9_theorem :
    (∀ (pre post : List String) (raw : String),
      (goTrimSpace raw = "" ∨ strHasPre (goTrimSpace raw) "#" = true ∨
        strHasPre (goTrimSpace raw) "//" = true) →
      loadEnhancedWordlist (pre ++ raw :: post) = loadEnhancedWordlist (pre ++ post)) ∧
    (∀ raw : String,
      ¬(goTrimSpace raw = "" ∨ strHasPre (goTrimSpace raw) "#" = true ∨
        strHasPre (goTrimSpace raw) "//" = true) →
      strHasPre (goTrimSpace raw) "*" = false →
      strContains (goTrimSpace raw) ":" = false →
      (loadEnhancedWordlist [raw]).1 = [{ service := goTrimSpace raw, methods := [] }]) := by
  constructor
  · intro pre post raw h
    have hskip : ∀ acc, parseWordLine acc raw = acc := by
      intro acc
      simp only [parseWordLine]
      split
      · rfl
      · rename_i hne
        exact absurd h hne
    simp only [loadEnhancedWordlist, List.foldl_append, List.foldl_cons, hskip]
  · intro raw hk h1 h2
    simp only [loadEnhancedWordlist, List.foldl_cons, List.foldl_nil, parseWordLine]
    rw [if_neg hk, if_neg (by simp [h1]), if_neg (by simp [h2])]
    rfl

/-- Claim C10: for every detector outcome (with Go error messages nonempty,
as `error.Error()` always is), `IsGRPC` is true exactly when the recorded
`Error` is empty, and a latency is recorded on every path. -/
theorem C10_theorem (d : DialOutcome)
    (h : ∀ msg, d = DialOutcome.dialErr msg → msg ≠ "") :
    ((checkGRPCService d).isGRPC = true ↔ (checkGRPCService d).error = "") ∧
    (checkGRPCService d).latencySet = true := by
  cases d with
  | dialErr msg =>
    have hmsg := h msg rfl
    simp [checkGRPCService, hmsg]
  | conn state invoke =>
    by_cases hs : state = ConnState.transientFailure ∨ state = ConnState.shutdown
    · rcases hs with h' | h' <;> subst h' <;> simp [checkGRPCService] <;> decide
    · cases invoke <;> simp [checkGRPCService, hs]

/-- Claim C10, witness: the theorem at a ready connection whose health check
succeeds. -/
theorem C10_witness :
    ((checkGRPCService (.conn .ready .success)).isGRPC = true ↔
      (checkGRPCService (.conn .ready .success)).error = "") ∧
    (checkGRPCService (.conn .ready .success)).latencySet = true :=
  C10_theorem _ (fun _ h => by cases h)

/-- `addService` leaves the methods map untouched. -/
theorem addService_methodsFound (st : ResultState) (s : String) :
    (addService st s).methodsFound = st.methodsFound := by
  unfold addService
  split <;> rfl

/-- `addMethod` leaves the service list untouched. -/
theorem addMethod_availableServices (st : ResultState) (s m : String) :
    (addMethod st s m).availableServices = st.availableServices := by
  unfold addMethod
  split <;> rfl

/-- `addService` only ever extends the service list. -/
theorem mem_addService_of_mem {st : ResultState} {x : String} (s : String)
    (h : x ∈ st.availableServices) : x ∈ (addService st s).availableServices := by
  unfold addService
  split
  · exact h
  · exact List.mem_append_left _ h

/-- After `addService st s` the service `s` is in the list. -/
theorem self_mem_addService (st : ResultState) (s : String) :
    s ∈ (addService st s).availableServices := by
  unfold addService
  split
  · assumption
  · exact List.mem_append_right _ (List.mem_singleton.2 rfl)

/-- A pair of the updated methods map is the written pair or an old one. -/
theorem mem_storeMethods {s : String} {v : List String} {p : String × List String} :
    ∀ {mf : List (String × List String)}, p ∈ storeMethods mf s v →
      p = (s, v) ∨ p ∈ mf := by
  intro mf
  induction mf with
  | nil =>
    intro hp
    simp only [storeMethods] at hp
    exact Or.inl (List.mem_singleton.1 hp)
  | cons kv rest ih =>
    obtain ⟨k, w⟩ := kv
    intro hp
    simp only [storeMethods] at hp
    split at hp
    · rcases List.mem_cons.1 hp with h | h
      · exact Or.inl h
      · exact Or.inr (List.mem_cons_of_mem _ h)
    · rcases List.mem_cons.1 hp with h | h
      · exact Or.inr (by rw [h]; exact List.mem_cons_self _ _)
      · rcases ih h with h' | h'
        · exact Or.inl h'
        · exact Or.inr (List.mem_cons_of_mem _ h')

/-- The value read back for a key is `[]` or a value stored in the map. -/
theorem lookupMethods_eq_nil_or_mem (mf : List (String × List String)) (s : String) :
    lookupMethods mf s = [] ∨ (s, lookupMethods mf s) ∈ mf := by
  unfold lookupMethods
  cases hfind : mf.find? (fun p => p.1 = s) with
  | none => exact Or.inl rfl
  | some p =>
    right
    have hmem := List.mem_of_find?_eq_some hfind
    have hps : p.1 = s := by simpa using List.find?_some hfind
    obtain ⟨p1, p2⟩ := p
    simp only at hps ⊢
    rw [hps] at hmem
    exact hmem

/-- `addService` preserves a duplicate-free service list. -/
theorem addService_nodup {st : ResultState}
    (h : st.availableServices.Nodup) (s : String) :
    (addService st s).availableServices.Nodup := by
  unfold addService
  split
  · exact h
  · rename_i hmem
    exact h.append (List.nodup_singleton s) (List.disjoint_singleton.2 hmem)

/-- `addMethod` preserves duplicate-free method lists. -/
theorem addMethod_values_nodup {st : ResultState}
    (h : ∀ p ∈ st.methodsFound, p.2.Nodup) (s m : String) :
    ∀ p ∈ (addMethod st s m).methodsFound, p.2.Nodup := by
  unfold addMethod
  split
  · exact h
  · rename_i hnm
    intro p hp
    rcases mem_storeMethods hp with hv | hv
    · subst hv
      have hcur : (lookupMethods st.methodsFound s).Nodup := by
        rcases lookupMethods_eq_nil_or_mem st.methodsFound s with hnil | hm
        · rw [hnil]; exact List.nodup_nil
        · exact h _ hm
      exact hcur.append (List.nodup_singleton m) (List.disjoint_singleton.2 hnm)
    · exact h _ hv

/-- The aggregation invariant behind claim C5, preserved along any update
sequence. -/
theorem runOps_nodup_inv (ops : List Op) :
    ∀ st : ResultState, st.availableServices.Nodup →
      (∀ p ∈ st.methodsFound, p.2.Nodup) →
      (ops.foldl applyOp st).availableServices.Nodup ∧
      ∀ p ∈ (ops.foldl applyOp st).methodsFound, p.2.Nodup := by
  induction ops with
  | nil => exact fun st h1 h2 => ⟨h1, h2⟩
  | cons op rest ih =>
    intro st h1 h2
    simp only [List.foldl_cons]
    cases op with
    | service s =>
      simp only [applyOp]
      refine ih _ (addService_nodup h1 s) ?_
      rw [addService_methodsFound]
      exact h2
    | method s m =>
      simp only [applyOp]
      refine ih _ ?_ (addMethod_values_nodup h2 s m)
      rw [addMethod_availableServices]
      exact h1

/-- Duplicate-freeness of the insert-if-new fold shared by `uniqueStrings`
and `goMapKeys`. -/
theorem foldl_ins_nodup (l : List String) :
    ∀ acc : List String, acc.Nodup →
      (l.foldl (fun r item => if item ∈ r then r else r ++ [item]) acc).Nodup := by
  induction l with
  | nil => exact fun acc h => h
  | cons x xs ih =>
    intro acc h
    simp only [List.foldl_cons]
    by_cases hx : x ∈ acc
    · rw [if_pos hx]
      exact ih acc h
    · rw [if_neg hx]
      exact ih _ (h.append (List.nodup_singleton x) (List.disjoint_singleton.2 hx))

/-- Claim C5: whatever sequence of `addService`/`addMethod` updates a
completed scan performed (the mutex serializes them into a list), the
service list has no duplicates and neither does any per-service method
list; part_005's `uniqueStrings` likewise always returns a duplicate-free
list. -/
theorem C5_theorem (ops : List Op) :
    (runOps ops).availableServices.Nodup ∧
    (∀ p ∈ (runOps ops).methodsFound, p.2.Nodup) ∧
    ∀ l : List String, (uniqueStrings l).Nodup := by
  have h := runOps_nodup_inv ops emptyResult List.nodup_nil (by intro p hp; cases hp)
  exact ⟨h.1, h.2, fun l => foldl_ins_nodup l [] List.nodup_nil⟩

/-- Keys added by `addMethod s' m` point at services already present when
`s'` is. -/
theorem addMethod_keys {st : ResultState} {s' : String} (m : String)
    (hkeys : ∀ s ms, (s, ms) ∈ st.methodsFound → s ∈ st.availableServices)
    (hs' : s' ∈ st.availableServices) :
    ∀ s ms, (s, ms) ∈ (addMethod st s' m).methodsFound → s ∈ st.availableServices := by
  unfold addMethod
  split
  · exact hkeys
  · intro s ms hm
    rcases mem_storeMethods hm with hv | hv
    · injection hv with h1 h2
      rw [h1]
      exact hs'
    · exact hkeys s ms hv

/-- The referential-integrity invariant behind claim C6, preserved along any
well-sequenced update list. -/
theorem runOps_keys_sub (ops : List Op) :
    ∀ (seen : List String) (st : ResultState),
      wellSequenced seen ops = true →
      (∀ x ∈ seen, x ∈ st.availableServices) →
      (∀ s ms, (s, ms) ∈ st.methodsFound → s ∈ st.availableServices) →
      ∀ s ms, (s, ms) ∈ (ops.foldl applyOp st).methodsFound →
        s ∈ (ops.foldl applyOp st).availableServices := by
  induction ops with
  | nil => exact fun seen st _ _ hkeys => hkeys
  | cons op rest ih =>
    intro seen st hws hseen hkeys
    cases op with
    | service s' =>
      simp only [List.foldl_cons, applyOp]
      refine ih (s' :: seen) _ (by simpa [wellSequenced] using hws) ?_ ?_
      · intro x hx
        rcases List.mem_cons.1 hx with h | h
        · rw [h]
          exact self_mem_addService st s'
        · exact mem_addService_of_mem s' (hseen x h)
      · intro s ms hm
        rw [addService_methodsFound] at hm
        exact mem_addService_of_mem s' (hkeys s ms hm)
    | method s' m =>
      simp only [List.foldl_cons, applyOp]
      have hws' := hws
      simp only [wellSequenced, Bool.and_eq_true, decide_eq_true_eq] at hws'
      refine ih seen _ hws'.2 ?_ ?_
      · intro x hx
        rw [addMethod_availableServices]
        exact hseen x hx
      · intro s ms hm
        rw [addMethod_availableServices]
        exact addMethod_keys m hkeys (hseen s' hws'.1) s ms hm

/-- Claim C6: every key of the methods map belongs to the service list,
for every update sequence respecting the orchestrator's call discipline
(each `addMethod s m` is preceded by an `addService s`, as at every call
site of part_004). -/
theorem C6_theorem (ops : List Op) (hws : wellSequenced [] ops = true)
    (s : String) (ms : List String)
    (hm : (s, ms) ∈ (runOps ops).methodsFound) :
    s ∈ (runOps ops).availableServices :=
  runOps_keys_sub ops [] emptyResult hws
    (fun x hx => absurd hx (List.not_mem_nil x))
    (fun _ _ h => absurd h (List.not_mem_nil _)) s ms hm

/-- Claim C6, witness: the theorem at a concrete well-sequenced scan. -/
theorem C6_witness :
    "user.UserService" ∈
      (runOps [.service "user.UserService", .method "user.UserService" "Get"]).availableServices :=
  C6_theorem [.service "user.UserService", .method "user.UserService" "Get"]
    (by decide) "user.UserService" ["Get"] (by decide)

/-- `dedupSeen` only inspects `seen` through membership. -/
theorem dedupSeen_congr (s₁ s₂ : List String) (h : ∀ y, y ∈ s₁ ↔ y ∈ s₂) :
    ∀ l, dedupSeen s₁ l = dedupSeen s₂ l
  | [] => rfl
  | x :: xs => by
    simp only [dedupSeen]
    by_cases hx : x ∈ s₁
    · rw [if_pos hx, if_pos ((h x).1 hx)]
      exact dedupSeen_congr s₁ s₂ h xs
    · rw [if_neg hx, if_neg (fun hc => hx ((h x).2 hc))]
      rw [dedupSeen_congr (x :: s₁) (x :: s₂) (fun y => by simp [List.mem_cons, h y]) xs]

/-- The insert-if-new fold is first-occurrence deduplication relative to the
elements already accumulated. -/
theorem foldl_ins_eq_dedupSeen (l : List String) :
    ∀ acc : List String,
      l.foldl (fun r item => if item ∈ r then r else r ++ [item]) acc =
        acc ++ dedupSeen acc l := by
  induction l with
  | nil =>
    intro acc
    simp [dedupSeen]
  | cons x xs ih =>
    intro acc
    simp only [List.foldl_cons, dedupSeen]
    by_cases hx : x ∈ acc
    · rw [if_pos hx, if_pos hx, ih acc]
    · rw [if_neg hx, if_neg hx, ih (acc ++ [x]),
        dedupSeen_congr (acc ++ [x]) (x :: acc) (fun y => by simp [or_comm]) xs]
      simp

/-- The Go-map key set, enumerated in insertion order, is exactly the
first-occurrence deduplication the spec describes. -/
theorem goMapKeys_eq_dedupKeepFirst (l : List String) :
    goMapKeys l = dedupKeepFirst l := by
  unfold goMapKeys dedupKeepFirst
  simpa using foldl_ins_eq_dedupSeen l []

/-- Claim C8, counterexample: for the parsed wordlist `["*GetById"]`
(one global method), the reversed claimed sequence is also a possible value
of `defaultMethods` — Go map iteration order is unspecified — and it differs
from the claimed first-occurrence order. -/
theorem C8_counterexample :
    (loadEnhancedWordlist ["*GetById"]).2 = ["GetById"] ∧
    defaultMethodsOutcome ["GetById"] (claimedDefaultMethods ["GetById"]).reverse ∧
    (claimedDefaultMethods ["GetById"]).reverse ≠ claimedDefaultMethods ["GetById"] := by
  refine ⟨by decide, ?_, by decide⟩
  unfold defaultMethodsOutcome
  rw [if_neg (by decide), goMapKeys_eq_dedupKeepFirst]
  exact List.reverse_perm _

/-- Claim C8, amended: with at least one global method, the computed default
method list is some permutation of the claimed sequence — the ten built-ins
concatenated with the globals, deduplicated keeping first occurrences — and
it is duplicate-free, but its order is unspecified (Go map iteration), not
necessarily the first-occurrence order. -/
theorem C8_theorem (globalMethods out : List String) (hg : globalMethods ≠ [])
    (hout : defaultMethodsOutcome globalMethods out) :
    List.Perm out (claimedDefaultMethods globalMethods) ∧ out.Nodup := by
  unfold defaultMethodsOutcome at hout
  rw [if_neg hg, goMapKeys_eq_dedupKeepFirst] at hout
  refine ⟨hout, ?_⟩
  have hnodup : (claimedDefaultMethods globalMethods).Nodup := by
    unfold claimedDefaultMethods
    rw [← goMapKeys_eq_dedupKeepFirst]
    exact foldl_ins_nodup _ [] List.nodup_nil
  exact hout.symm.nodup hnodup

/-- Claim C8, witness: the amended theorem at the global list `["GetById"]`
with the claimed sequence itself as the outcome. -/
theorem C8_witness :
    List.Perm (claimedDefaultMethods ["GetById"]) (claimedDefaultMethods ["GetById"]) ∧
    (claimedDefaultMethods ["GetById"]).Nodup :=
  C8_theorem ["GetById"] (claimedDefaultMethods ["GetById"]) (by decide)
    (by unfold defaultMethodsOutcome
        rw [if_neg (by decide), goMapKeys_eq_dedupKeepFirst]
        exact List.Perm.refl _)

end GrpcScan
